import Mathlib

/-!
Verification development for the Cainhurst video-frame indexing and semantic
retrieval pipeline.

The Python sources are shallowly embedded as Lean definitions:
* `extract_frames_from_video`, `process_all_videos` embed
  `app/services/extractor.py` (frame sampling, per-frame captioning,
  metadata construction, batch processing);
* `similarityOfDistance` and `searchResults` embed the distance-to-similarity
  normalization and result joining of `app/services/search.py`;
* `buildDocument` and `index_frames` embed the document construction and
  batch indexing of `scripts/process_videos.py`.

Machine floats of the source are modelled as rationals (`ℚ`); Python's
`int()` truncation, `or`-defaulting, and truthiness tests are modelled
explicitly (`pyInt`, `resolveFps`, `pyTruthy`).  Fallible operations
(unopenable video, `ZeroDivisionError`) return `Except String`.  The random
`uuid.uuid4()` supply is modelled by a deterministic counter threaded through
the extraction pass, which keeps its essential property (a fresh identifier
for every selected frame).  A video file is modelled by its basename, the
frame rate and frame count reported by `cv2.VideoCapture`, the number of
frames its decode stream delivers (`numFrames` serves for both the reported
`CAP_PROP_FRAME_COUNT` and the stream length), and whether it opens.
-/

/-! ## Definitions: shallow embedding of the pipeline -/

def pyInt (q : ℚ) : ℤ := if q < 0 then -⌊-q⌋ else ⌊q⌋

def pyTruthy (m : Option ℕ) : Bool :=
  match m with
  | none => false
  | some n => n != 0

def settingsFramesPerSecond : ℚ := 1

def resolveFps (framesPerSecond : Option ℚ) : ℚ :=
  match framesPerSecond with
  | none => settingsFramesPerSecond
  | some q => if q = 0 then settingsFramesPerSecond else q

def frameIntervalZ (videoFps fps : ℚ) : ℤ :=
  let fi := pyInt (videoFps / fps)
  if fi < 1 then 1 else fi

def frameInterval (videoFps fps : ℚ) : ℕ := (frameIntervalZ videoFps fps).toNat

def similarityOfDistance (distance : ℚ) : ℚ :=
  let similarity := distance
  if similarity > 1 then 1 - min similarity 2 / 2 else similarity

def decAux : ℕ → ℕ → List Char
  | 0, _ => []
  | fuel + 1, n => if n = 0 then [] else Char.ofNat (48 + n % 10) :: decAux fuel (n / 10)

def decRender (n : ℕ) : List Char := (decAux n n).reverse

def pad5L (q : ℕ) : List Char :=
  List.replicate (5 - (decRender q).length) '0' ++ decRender q

def pad5 (q : ℕ) : String := String.mk (pad5L q)

def decVal : List Char → ℕ
  | [] => 0
  | c :: r => (c.toNat - 48) + 10 * decVal r

def splitextStem (s : String) : String :=
  let l := s.data
  match l.reverse.findIdx? (fun c => c == '.') with
  | none => s
  | some k =>
    let i := l.length - 1 - k
    if (l.take i).any (fun c => c != '.') then String.mk (l.take i) else s

def frameFilename (videoFilename : String) (processedCount : ℕ) : String :=
  splitextStem videoFilename ++ "_frame_" ++ pad5 processedCount ++ ".jpg"

def sepFrame : List Char := "_frame_".data

def isPySpace (c : Char) : Bool :=
  c == ' ' || c == '\t' || c == '\n' || c == '\r' || c == '\x0b' || c == '\x0c'

def pyStrip (s : String) : String :=
  String.mk (((s.data.dropWhile isPySpace).reverse.dropWhile isPySpace).reverse)

def pyJoin (sep : String) : List String → String
  | [] => ""
  | [s] => s
  | s :: rest => s ++ sep ++ pyJoin sep rest

structure FrameMeta where
  id : ℕ
  filename : String
  video_filename : String
  frame_number : ℕ
  timestamp : ℚ
  description : Option String
deriving DecidableEq, Repr

structure VideoFile where
  filename : String
  fpsNative : ℚ
  numFrames : ℕ
  openable : Bool
deriving DecidableEq, Repr

def Captioner : Type := String → Except String String

def generate_frame_description (captioner : Captioner) (framePath : String) :
    Option String :=
  match captioner framePath with
  | Except.ok d => some d
  | Except.error _ => none

def descriptionField (clipModel : Option Captioner) (framePath : String) :
    Option String :=
  match clipModel with
  | none => none
  | some c =>
    match generate_frame_description c framePath with
    | none => none
    | some d => if d = "" then none else some d

def mkFrameMeta (framesDir videoFilename : String) (videoFps : ℚ)
    (clipModel : Option Captioner) (idv frameCount processedCount : ℕ) :
    FrameMeta :=
  let frame_filename := frameFilename videoFilename processedCount
  let frame_path := framesDir ++ "/" ++ frame_filename
  { id := idv
    filename := frame_filename
    video_filename := videoFilename
    frame_number := frameCount
    timestamp := (frameCount : ℚ) / videoFps
    description := descriptionField clipModel frame_path }

structure LoopCtx where
  framesDir : String
  videoFilename : String
  videoFps : ℚ
  clipModel : Option Captioner
  interval : ℕ
  readable : ℕ
  maxFrames : Option ℕ
  idStart : ℕ

def extractLoop (ctx : LoopCtx) : ℕ → ℕ → ℕ → Except String (List FrameMeta)
  | _, _, 0 => Except.ok []
  | frameCount, processed, fuel + 1 =>
    if ctx.readable ≤ frameCount then Except.ok []
    else if frameCount % ctx.interval = 0 then
      if ctx.videoFps = 0 then Except.error "ZeroDivisionError"
      else
        let meta := mkFrameMeta ctx.framesDir ctx.videoFilename ctx.videoFps
          ctx.clipModel (ctx.idStart + processed) frameCount processed
        if pyTruthy ctx.maxFrames ∧ ctx.maxFrames.getD 0 ≤ processed + 1 then
          Except.ok [meta]
        else
          (extractLoop ctx (frameCount + 1) (processed + 1) fuel).map
            (fun rest => meta :: rest)
    else extractLoop ctx (frameCount + 1) processed fuel

def extract_frames_from_video (framesDir : String) (clipModel : Option Captioner)
    (idStart : ℕ) (videoPath : VideoFile) (frames_per_second : Option ℚ)
    (max_frames : Option ℕ) : Except String (List FrameMeta) :=
  let fps := resolveFps frames_per_second
  if videoPath.openable = false then
    Except.error ("Could not open video file: " ++ videoPath.filename)
  else
    let video_fps := videoPath.fpsNative
    let total_frames := videoPath.numFrames
    let frame_interval := frameInterval video_fps fps
    let frames_to_extract :=
      if pyTruthy max_frames then
        min total_frames (max_frames.getD 0 * frame_interval)
      else total_frames
    extractLoop
      { framesDir := framesDir, videoFilename := videoPath.filename,
        videoFps := video_fps, clipModel := clipModel,
        interval := frame_interval, readable := videoPath.numFrames,
        maxFrames := max_frames, idStart := idStart }
      0 0 frames_to_extract

def processVideosGo (framesDir : String) (clipModel : Option Captioner) :
    List VideoFile → ℕ → Except String (List (ℕ × FrameMeta))
  | [], _ => Except.ok []
  | v :: rest, ids =>
    match extract_frames_from_video framesDir clipModel ids v none none with
    | Except.error e => Except.error e
    | Except.ok ms =>
      (processVideosGo framesDir clipModel rest (ids + ms.length)).map
        (fun tail => ms.map (fun m => (m.id, m)) ++ tail)

def process_all_videos (videosDir framesDir : String)
    (clipModel : Option Captioner) (videoFiles : List VideoFile)
    (idStart : ℕ) : Except String (List (ℕ × FrameMeta)) :=
  if videoFiles.isEmpty then
    Except.error ("No video files found in " ++ videosDir)
  else processVideosGo framesDir clipModel videoFiles idStart

def selectPairs (interval : ℕ) (maxFrames : Option ℕ) :
    ℕ → ℕ → ℕ → List (ℕ × ℕ)
  | _, _, 0 => []
  | c, q, fuel + 1 =>
    if c % interval = 0 then
      if pyTruthy maxFrames ∧ maxFrames.getD 0 ≤ q + 1 then [(c, q)]
      else (c, q) :: selectPairs interval maxFrames (c + 1) (q + 1) fuel
    else selectPairs interval maxFrames (c + 1) q fuel

def cdiv (a b : ℕ) : ℕ := (a + b - 1) / b

def videoNameOf (video_filename : String) : String :=
  ((splitextStem video_filename).replace "_" " ").replace "-" " "

def buildDocument (frame_data : FrameMeta) : String :=
  let doc_text : List String :=
    match frame_data.description with
    | some d => [d]
    | none => []
  let doc_text := doc_text ++ ["Video: " ++ videoNameOf frame_data.video_filename]
  let doc_text := doc_text ++ ["Frame from video content", "Scene from video"]
  pyJoin " " doc_text

structure IndexEntry where
  id : ℕ
  document : String
  video_filename : String
  frame_number : ℕ
  timestamp : ℚ
deriving DecidableEq, Repr

def index_frames (metadata : List (ℕ × FrameMeta)) :
    Except String (List IndexEntry) :=
  let entries := metadata.filterMap (fun p =>
    let document := buildDocument p.2
    if pyStrip document = "" then none
    else some { id := p.1, document := document,
                video_filename := p.2.video_filename,
                frame_number := p.2.frame_number,
                timestamp := p.2.timestamp })
  if entries.isEmpty then Except.error "No frames to index!"
  else Except.ok entries

structure FrameResponse where
  image_url : String
  video_filename : String
  frame_number : ℕ
  similarity_score : ℚ
deriving DecidableEq, Repr

def searchResults (frame_metadata : List (ℕ × FrameMeta))
    (ids : List ℕ) (distances : List ℚ) : List FrameResponse :=
  (ids.zip distances).filterMap (fun p =>
    match frame_metadata.lookup p.1 with
    | none => none
    | some metadata =>
      some { image_url := metadata.filename,
             video_filename := metadata.video_filename,
             frame_number := metadata.frame_number,
             similarity_score := similarityOfDistance p.2 })

def eraseDescription (m : FrameMeta) : FrameMeta :=
  { m with description := none }

def okLengthLE (r : Except String (List FrameMeta)) (n : ℕ) : Prop :=
  match r with
  | Except.error _ => True
  | Except.ok ms => ms.length ≤ n

def exceptErrored {α : Type} (r : Except String α) : Bool :=
  match r with
  | Except.error _ => true
  | Except.ok _ => false

/-! ## Theorems -/

theorem one_le_frameInterval (videoFps fps : ℚ) : 1 ≤ frameInterval videoFps fps := by
  unfold frameInterval frameIntervalZ
  simp only []
  split
  · simp
  · next h =>
    push_neg at h
    omega

theorem similarityOfDistance_of_le_one {d : ℚ} (h : d ≤ 1) :
    similarityOfDistance d = d := by
  unfold similarityOfDistance
  simp only []
  rw [if_neg (by linarith)]

theorem similarityOfDistance_of_gt_one {d : ℚ} (h : 1 < d) :
    similarityOfDistance d = 1 - min d 2 / 2 := by
  unfold similarityOfDistance
  simp only []
  rw [if_pos (by linarith)]

theorem decAux_zero (fuel : ℕ) : decAux fuel 0 = [] := by
  cases fuel <;> simp [decAux]

theorem decVal_decAux : ∀ fuel n, n ≤ fuel → decVal (decAux fuel n) = n := by
  intro fuel
  induction fuel with
  | zero => intro n hn; interval_cases n; simp [decAux, decVal]
  | succ f ih =>
    intro n hn
    by_cases h0 : n = 0
    · subst h0; simp [decAux, decVal]
    · have hdiv : n / 10 ≤ f := by
        have := Nat.div_lt_self (Nat.pos_of_ne_zero h0) (by norm_num : 1 < 10)
        omega
      have hmod : n % 10 < 10 := Nat.mod_lt _ (by norm_num)
      have hchar : (Char.ofNat (48 + n % 10)).toNat = 48 + n % 10 := by
        interval_cases h : (n % 10) <;> decide
      rw [decAux, if_neg h0]
      simp [decVal, hchar, ih _ hdiv]
      omega

theorem decRender_injective {a b : ℕ} (h : decRender a = decRender b) : a = b := by
  have h2 : decAux a a = decAux b b := by
    have := congrArg List.reverse h
    simpa [decRender] using this
  have := congrArg decVal h2
  rwa [decVal_decAux a a le_rfl, decVal_decAux b b le_rfl] at this

theorem decAux_ne_nil {fuel n : ℕ} (hn : 0 < n) (hle : n ≤ fuel) :
    decAux fuel n ≠ [] := by
  cases fuel with
  | zero => omega
  | succ f => rw [decAux, if_neg (by omega)]; simp

theorem decAux_getLast_ne_zero :
    ∀ fuel n, 0 < n → n ≤ fuel → ∀ (h : decAux fuel n ≠ []),
      (decAux fuel n).getLast h ≠ '0' := by
  intro fuel
  induction fuel with
  | zero => intro n h1 h2; omega
  | succ f ih =>
    intro n h1 h2 hne
    by_cases hq : n / 10 = 0
    · have hlt : n < 10 := by omega
      have : decAux (f + 1) n = [Char.ofNat (48 + n % 10)] := by
        rw [decAux, if_neg (by omega), hq, decAux_zero]
      rw [List.getLast_congr _ (by simp) this, List.getLast_singleton]
      have : n % 10 = n := Nat.mod_eq_of_lt hlt
      rw [this]
      interval_cases n <;> decide
    · have hq1 : 0 < n / 10 := Nat.pos_of_ne_zero hq
      have hq2 : n / 10 ≤ f := by
        have := Nat.div_lt_self (by omega : 0 < n) (by norm_num : 1 < 10)
        omega
      have hrest : decAux f (n / 10) ≠ [] := decAux_ne_nil hq1 hq2
      have hstep : decAux (f + 1) n = Char.ofNat (48 + n % 10) :: decAux f (n / 10) := by
        rw [decAux, if_neg (by omega)]
      rw [List.getLast_congr _ _ hstep, List.getLast_cons hrest]
      exact ih (n / 10) hq1 hq2 hrest

theorem decAux_isDigit : ∀ fuel n, ∀ c ∈ decAux fuel n, c.isDigit = true := by
  intro fuel
  induction fuel with
  | zero => intro n c hc; simp [decAux] at hc
  | succ f ih =>
    intro n c hc
    by_cases h0 : n = 0
    · subst h0; simp [decAux] at hc
    · rw [decAux, if_neg h0] at hc
      rcases List.mem_cons.mp hc with h | h
      · subst h
        have : n % 10 < 10 := Nat.mod_lt _ (by norm_num)
        interval_cases h : (n % 10) <;> decide
      · exact ih _ _ h

theorem pad5L_isDigit (q : ℕ) : ∀ c ∈ pad5L q, c.isDigit = true := by
  intro c hc
  rcases List.mem_append.mp hc with h | h
  · rw [List.eq_of_mem_replicate h]; decide
  · exact decAux_isDigit _ _ _ (List.mem_reverse.mp h)

theorem dropWhile_zero_replicate (k : ℕ) (l : List Char) :
    List.dropWhile (fun c => c == '0') (List.replicate k '0' ++ l)
      = List.dropWhile (fun c => c == '0') l := by
  induction k with
  | zero => simp
  | succ n ih => simpa [List.replicate_succ, List.dropWhile] using ih

theorem decRender_head_ne_zero {q : ℕ} (h : 0 < q) {c : Char} {r : List Char}
    (hcons : decRender q = c :: r) : c ≠ '0' := by
  have hne : decAux q q ≠ [] := decAux_ne_nil h le_rfl
  have hd : decAux q q = r.reverse ++ [c] := by
    have := congrArg List.reverse hcons
    simpa [decRender] using this
  have hlast := decAux_getLast_ne_zero q q h le_rfl hne
  have h1 : (decAux q q).getLast? = some c := by
    rw [hd]; exact List.getLast?_concat _
  have h2 : (decAux q q).getLast? = some ((decAux q q).getLast hne) :=
    List.getLast?_eq_getLast _ hne
  rw [h1] at h2
  injection h2 with h3
  rw [h3]
  exact hlast

theorem dropWhile_zero_decRender (q : ℕ) :
    List.dropWhile (fun c => c == '0') (decRender q) = decRender q := by
  rcases Nat.eq_zero_or_pos q with h | h
  · subst h; simp [decRender, decAux]
  · have hne : decAux q q ≠ [] := decAux_ne_nil h le_rfl
    have hrev : decRender q ≠ [] := by simpa [decRender] using hne
    obtain ⟨c, r, hcons⟩ := List.exists_cons_of_ne_nil hrev
    have hc : c ≠ '0' := decRender_head_ne_zero h hcons
    rw [hcons, List.dropWhile_cons]
    simp [hc]

theorem pad5L_injective {a b : ℕ} (h : pad5L a = pad5L b) : a = b := by
  have h2 := congrArg (List.dropWhile (fun c => c == '0')) h
  rw [pad5L, pad5L, dropWhile_zero_replicate, dropWhile_zero_replicate,
    dropWhile_zero_decRender, dropWhile_zero_decRender] at h2
  exact decRender_injective h2

theorem pad5_injective {a b : ℕ} (h : pad5 a = pad5 b) : a = b := by
  apply pad5L_injective
  have := congrArg String.data h
  simpa [pad5] using this

theorem sep_digits_append_len_lt {a1 a2 p1 p2 : List Char}
    (hp2 : ∀ c ∈ p2, c.isDigit = true) (hlen : p1.length < p2.length)
    (heq : a1 ++ (sepFrame ++ p1) = a2 ++ (sepFrame ++ p2)) : False := by
  have hrev2 : p1.reverse ++ (sepFrame.reverse ++ a1.reverse)
      = p2.reverse ++ (sepFrame.reverse ++ a2.reverse) := by
    have := congrArg List.reverse heq
    simpa [List.reverse_append, List.append_assoc] using this
  have hlt : p1.length < p2.reverse.length := by simpa using hlen
  have hLv : (p1.reverse ++ (sepFrame.reverse ++ a1.reverse)).get? p1.length
      = some '_' := by
    rw [List.get?_append_right (by simp)]
    have h0 : p1.length - p1.reverse.length = 0 := by simp
    rw [h0, List.get?_append (by decide : 0 < sepFrame.reverse.length)]
    decide
  have hRv : (p2.reverse ++ (sepFrame.reverse ++ a2.reverse)).get? p1.length
      = some (p2.reverse.get ⟨p1.length, hlt⟩) := by
    rw [List.get?_append hlt]
    exact List.get?_eq_get hlt
  have hmem : p2.reverse.get ⟨p1.length, hlt⟩ ∈ p2 :=
    List.mem_reverse.mp (List.get_mem _ _ hlt)
  have hdig : Char.isDigit (p2.reverse.get ⟨p1.length, hlt⟩) = true := hp2 _ hmem
  have : some '_' = some (p2.reverse.get ⟨p1.length, hlt⟩) := by
    rw [← hLv, hrev2, hRv]
  injection this with h3
  rw [← h3] at hdig
  simp at hdig

theorem sep_digits_append_inj {a1 a2 p1 p2 : List Char}
    (hp1 : ∀ c ∈ p1, c.isDigit = true) (hp2 : ∀ c ∈ p2, c.isDigit = true)
    (heq : a1 ++ (sepFrame ++ p1) = a2 ++ (sepFrame ++ p2)) :
    a1 = a2 ∧ p1 = p2 := by
  rcases lt_trichotomy p1.length p2.length with h | h | h
  · exact absurd (sep_digits_append_len_lt hp2 h heq) (by simp)
  · have heq2 : (a1 ++ sepFrame) ++ p1 = (a2 ++ sepFrame) ++ p2 := by
      simpa [List.append_assoc] using heq
    obtain ⟨hpre, hp⟩ := List.append_inj' heq2 h
    obtain ⟨ha, _⟩ := List.append_inj' hpre rfl
    exact ⟨ha, hp⟩
  · exact absurd (sep_digits_append_len_lt hp1 h heq.symm) (by simp)

theorem string_data_append (a b : String) : (a ++ b).data = a.data ++ b.data := rfl

theorem frameFilename_injective (v1 v2 : String) (q1 q2 : ℕ)
    (hstem : splitextStem v1 = splitextStem v2 → v1 = v2)
    (hne : (v1, q1) ≠ (v2, q2)) :
    frameFilename v1 q1 ≠ frameFilename v2 q2 := by
  intro heq
  have hdata := congrArg String.data heq
  simp only [frameFilename, string_data_append, List.append_assoc] at hdata
  have hjpg : (splitextStem v1).data ++ (sepFrame ++ (pad5 q1).data)
      = (splitextStem v2).data ++ (sepFrame ++ (pad5 q2).data) := by
    have h2 : ((splitextStem v1).data ++ (sepFrame ++ (pad5 q1).data)) ++ ".jpg".data
        = ((splitextStem v2).data ++ (sepFrame ++ (pad5 q2).data)) ++ ".jpg".data := by
      simpa [sepFrame, List.append_assoc] using hdata
    exact (List.append_inj' h2 rfl).1
  have hd1 : ∀ c ∈ (pad5 q1).data, c.isDigit = true := pad5L_isDigit q1
  have hd2 : ∀ c ∈ (pad5 q2).data, c.isDigit = true := pad5L_isDigit q2
  obtain ⟨hstems, hpads⟩ := sep_digits_append_inj hd1 hd2 hjpg
  have hv : v1 = v2 := hstem (String.ext hstems)
  have hq : q1 = q2 := pad5_injective (String.ext hpads)
  exact hne (by rw [hv, hq])

theorem extractLoop_ok (ctx : LoopCtx) (hfps : ctx.videoFps ≠ 0) :
    ∀ fuel c q, c + fuel ≤ ctx.readable →
      extractLoop ctx c q fuel
        = Except.ok ((selectPairs ctx.interval ctx.maxFrames c q fuel).map
            (fun p => mkFrameMeta ctx.framesDir ctx.videoFilename ctx.videoFps
              ctx.clipModel (ctx.idStart + p.2) p.1 p.2)) := by
  intro fuel
  induction fuel with
  | zero => intro c q _; simp [extractLoop, selectPairs]
  | succ f ih =>
    intro c q hread
    have hc : ¬ ctx.readable ≤ c := by omega
    rw [extractLoop, selectPairs, if_neg hc]
    by_cases hsel : c % ctx.interval = 0
    · rw [if_pos hsel, if_pos hsel, if_neg hfps]
      by_cases hstop : pyTruthy ctx.maxFrames ∧ ctx.maxFrames.getD 0 ≤ q + 1
      · rw [if_pos hstop, if_pos hstop]
        rfl
      · rw [if_neg hstop, if_neg hstop, ih (c + 1) (q + 1) (by omega)]
        rfl
    · rw [if_neg hsel, if_neg hsel]
      exact ih (c + 1) q (by omega)

theorem cdiv_le_of_le_mul {a b k : ℕ} (hb : 1 ≤ b) (h : a ≤ k * b) :
    cdiv a b ≤ k := by
  unfold cdiv
  calc (a + b - 1) / b ≤ (k * b + (b - 1)) / b := by
        apply Nat.div_le_div_right; omega
    _ = k + (b - 1) / b := by rw [Nat.mul_comm k b, Nat.mul_add_div (by omega)]
    _ = k := by rw [Nat.div_eq_of_lt (by omega)]; omega

theorem mul_lt_of_lt_cdiv {a b k : ℕ} (hb : 1 ≤ b) (h : k < cdiv a b) :
    k * b < a := by
  by_contra hle
  push_neg at hle
  exact absurd (cdiv_le_of_le_mul hb hle) (by omega)

theorem cdiv_pos {a b : ℕ} (hb : 1 ≤ b) (ha : 1 ≤ a) : 1 ≤ cdiv a b := by
  unfold cdiv
  rw [Nat.le_div_iff_mul_le (by omega)]
  omega

theorem cdiv_eq_one {a b : ℕ} (hb : 1 ≤ b) (ha : 1 ≤ a) (hab : a ≤ b) :
    cdiv a b = 1 := by
  have h1 := cdiv_pos hb ha
  have h2 : cdiv a b ≤ 1 := cdiv_le_of_le_mul hb (by omega)
  omega

theorem cdiv_add_base {a b : ℕ} (hb : 1 ≤ b) :
    cdiv (a + b) b = cdiv a b + 1 := by
  unfold cdiv
  have : a + b + b - 1 = (a + b - 1) + b := by omega
  rw [this, Nat.add_div_right _ (by omega)]

theorem cdiv_mul_self {n b : ℕ} (hb : 1 ≤ b) : cdiv (n * b) b = n := by
  induction n with
  | zero => unfold cdiv; simp [Nat.div_eq_of_lt (by omega : b - 1 < b)]
  | succ k ih => rw [Nat.succ_mul, cdiv_add_base hb, ih]

theorem cdiv_min (a b i : ℕ) (hi : 1 ≤ i) :
    cdiv (min a b) i = min (cdiv a i) (cdiv b i) := by
  rcases le_total a b with h | h
  · rw [min_eq_left h, min_eq_left (by apply Nat.div_le_div_right; omega)]
  · rw [min_eq_right h, min_eq_right (by apply Nat.div_le_div_right; omega)]

theorem selectPairs_skip (i : ℕ) (mf : Option ℕ) :
    ∀ d f c q, (∀ t, t < d → (c + t) % i ≠ 0) →
      selectPairs i mf c q (d + f) = selectPairs i mf (c + d) q f := by
  intro d
  induction d with
  | zero => intro f c q _; simp
  | succ e ih =>
    intro f c q h
    have h0 : c % i ≠ 0 := by simpa using h 0 (by omega)
    have hstep : e + 1 + f = (e + f) + 1 := by omega
    rw [hstep, selectPairs, if_neg h0]
    have hrec := ih f (c + 1) q (by
      intro t ht
      have h2 := h (t + 1) (by omega)
      have h3 : c + 1 + t = c + (t + 1) := by omega
      rw [h3]
      exact h2)
    rw [hrec]
    have : c + 1 + e = c + (e + 1) := by omega
    rw [this]

theorem list_range_one : List.range 1 = [0] := by decide

theorem mod_shift_ne {c i x : ℕ} (hc : c % i = 0) (hx1 : 1 ≤ x) (hx2 : x < i) :
    (c + x) % i ≠ 0 := by
  rw [Nat.add_mod, hc, Nat.zero_add, Nat.mod_mod_of_dvd _ (dvd_refl i),
    Nat.mod_eq_of_lt hx2]
  omega

theorem selectPairs_closed (i : ℕ) (mf : Option ℕ) (hi : 1 ≤ i) :
    ∀ fuel c q, c % i = 0 → (pyTruthy mf = true → q < mf.getD 0) →
      selectPairs i mf c q fuel
        = (List.range (min (cdiv fuel i)
            (if pyTruthy mf then mf.getD 0 - q else cdiv fuel i))).map
            (fun k => (c + k * i, q + k)) := by
  intro fuel
  induction fuel using Nat.strong_induction_on with
  | _ fuel ih =>
    intro c q hc0 hcap
    cases fuel with
    | zero =>
      have hz : cdiv 0 i = 0 := by
        unfold cdiv
        exact Nat.div_eq_of_lt (by omega)
      simp [selectPairs, hz]
    | succ f =>
      rw [selectPairs, if_pos hc0]
      have hcd1 : 1 ≤ cdiv (f + 1) i := cdiv_pos hi (by omega)
      by_cases hstop : pyTruthy mf ∧ mf.getD 0 ≤ q + 1
      · obtain ⟨ht, hle⟩ := hstop
        have hqlt := hcap ht
        have hmin : min (cdiv (f + 1) i) (mf.getD 0 - q) = 1 := by omega
        rw [if_pos ⟨ht, hle⟩]
        simp [ht, hmin, list_range_one]
      · rw [if_neg hstop]
        by_cases hsmall : f < i
        · have hnone : selectPairs i mf (c + 1) (q + 1) f = [] := by
            have hskip := selectPairs_skip i mf f 0 (c + 1) (q + 1) (by
              intro t ht
              have h1 : c + 1 + t = c + (1 + t) := by omega
              rw [h1]
              exact mod_shift_ne hc0 (by omega) (by omega))
            simpa using hskip
          rw [hnone]
          have h1 : cdiv (f + 1) i = 1 := cdiv_eq_one hi (by omega) (by omega)
          cases htr : pyTruthy mf with
          | false => simp [htr, h1, list_range_one]
          | true =>
            have hq := hcap htr
            have hne : ¬ mf.getD 0 ≤ q + 1 := fun hle => hstop ⟨htr, hle⟩
            have hmin : min 1 (mf.getD 0 - q) = 1 := by omega
            simp [htr, h1, hmin, list_range_one]
        · push_neg at hsmall
          have hskip := selectPairs_skip i mf (i - 1) (f - (i - 1)) (c + 1) (q + 1) (by
            intro t ht
            have h1 : c + 1 + t = c + (1 + t) := by omega
            rw [h1]
            exact mod_shift_ne hc0 (by omega) (by omega))
          have hf : (i - 1) + (f - (i - 1)) = f := by omega
          rw [hf] at hskip
          have hc1 : c + 1 + (i - 1) = c + i := by omega
          rw [hc1] at hskip
          rw [hskip]
          have hcR : (c + i) % i = 0 := by
            rw [Nat.add_mod, hc0]
            simp
          have hcapR : pyTruthy mf = true → q + 1 < mf.getD 0 := by
            intro ht
            have h2 := hcap ht
            have h3 : ¬ mf.getD 0 ≤ q + 1 := fun hle => hstop ⟨ht, hle⟩
            omega
          rw [ih (f - (i - 1)) (by omega) (c + i) (q + 1) hcR hcapR]
          have harith : cdiv (f + 1) i = cdiv (f - (i - 1)) i + 1 := by
            have h4 : f + 1 = (f - (i - 1)) + i := by omega
            rw [h4, cdiv_add_base hi]
          have hcount :
              min (cdiv (f + 1) i) (if pyTruthy mf then mf.getD 0 - q else cdiv (f + 1) i)
                = min (cdiv (f - (i - 1)) i)
                    (if pyTruthy mf then mf.getD 0 - (q + 1) else cdiv (f - (i - 1)) i) + 1 := by
            cases htr : pyTruthy mf with
            | false => simp [harith]
            | true =>
              have hq := hcap htr
              have hne : ¬ mf.getD 0 ≤ q + 1 := fun hle => hstop ⟨htr, hle⟩
              simp only [htr, eq_self_iff_true, if_true]
              omega
          rw [hcount, List.range_succ_eq_map, List.map_cons, List.map_map]
          have hhead : (c + 0 * i, q + 0) = (c, q) := by simp
          rw [hhead]
          congr 1
          apply List.map_congr_left
          intro k _
          simp only [Function.comp_apply, Nat.succ_mul, Prod.mk.injEq]
          constructor <;> omega

theorem extract_frames_spec (framesDir : String) (clipModel : Option Captioner)
    (idStart : ℕ) (v : VideoFile) (fpsArg : Option ℚ) (mf : Option ℕ)
    (hopen : v.openable = true) (hfps : v.fpsNative ≠ 0) :
    extract_frames_from_video framesDir clipModel idStart v fpsArg mf
      = Except.ok ((selectPairs (frameInterval v.fpsNative (resolveFps fpsArg)) mf 0 0
          (if pyTruthy mf then
            min v.numFrames (mf.getD 0 * frameInterval v.fpsNative (resolveFps fpsArg))
          else v.numFrames)).map
          (fun p => mkFrameMeta framesDir v.filename v.fpsNative clipModel
            (idStart + p.2) p.1 p.2)) := by
  have hread : (if pyTruthy mf then
      min v.numFrames (mf.getD 0 * frameInterval v.fpsNative (resolveFps fpsArg))
    else v.numFrames) ≤ v.numFrames := by
    split
    · exact min_le_left _ _
    · exact le_rfl
  unfold extract_frames_from_video
  rw [if_neg (by simp [hopen])]
  exact extractLoop_ok _ hfps _ 0 0 (by simp only [Nat.zero_add]; exact hread)

theorem frameInterval_eq_floor {fpsN fpsT : ℚ} (hT : 0 < fpsT) (hle : fpsT ≤ fpsN) :
    frameInterval fpsN fpsT = (⌊fpsN / fpsT⌋).toNat ∧ 1 ≤ (⌊fpsN / fpsT⌋).toNat := by
  have hq1 : (1 : ℚ) ≤ fpsN / fpsT := (one_le_div hT).mpr hle
  have hfl : 1 ≤ ⌊fpsN / fpsT⌋ := by
    have := Int.le_floor.mpr (by exact_mod_cast hq1 : ((1 : ℤ) : ℚ) ≤ fpsN / fpsT)
    omega
  have hpy : pyInt (fpsN / fpsT) = ⌊fpsN / fpsT⌋ := by
    unfold pyInt
    rw [if_neg (by linarith)]
  unfold frameInterval frameIntervalZ
  simp only []
  rw [hpy, if_neg (by omega)]
  exact ⟨rfl, by omega⟩

theorem extract_unopenable {framesDir : String} {clipModel : Option Captioner}
    {idStart : ℕ} {v : VideoFile} {fpsArg : Option ℚ} {mf : Option ℕ}
    (h : v.openable = false) :
    extract_frames_from_video framesDir clipModel idStart v fpsArg mf
      = Except.error ("Could not open video file: " ++ v.filename) := by
  unfold extract_frames_from_video
  rw [if_pos h]

theorem extractLoop_length_le (ctx : LoopCtx) (hN : pyTruthy ctx.maxFrames = true) :
    ∀ fuel c q ms, q < ctx.maxFrames.getD 0 →
      extractLoop ctx c q fuel = Except.ok ms →
      q + ms.length ≤ ctx.maxFrames.getD 0 := by
  intro fuel
  induction fuel with
  | zero =>
    intro c q ms hq hok
    rw [extractLoop] at hok
    injection hok with h
    subst h
    simpa using hq.le
  | succ f ih =>
    intro c q ms hq hok
    rw [extractLoop] at hok
    by_cases hr : ctx.readable ≤ c
    · rw [if_pos hr] at hok
      injection hok with h
      subst h
      simpa using hq.le
    · rw [if_neg hr] at hok
      by_cases hsel : c % ctx.interval = 0
      · rw [if_pos hsel] at hok
        by_cases hz : ctx.videoFps = 0
        · rw [if_pos hz] at hok
          cases hok
        · rw [if_neg hz] at hok
          by_cases hstop : pyTruthy ctx.maxFrames ∧ ctx.maxFrames.getD 0 ≤ q + 1
          · rw [if_pos hstop] at hok
            injection hok with h
            subst h
            have := hstop.2
            simp only [List.length_singleton]
            omega
          · rw [if_neg hstop] at hok
            have hqlt : q + 1 < ctx.maxFrames.getD 0 := by
              have : ¬ ctx.maxFrames.getD 0 ≤ q + 1 := fun hle => hstop ⟨hN, hle⟩
              omega
            cases hrec : extractLoop ctx (c + 1) (q + 1) f with
            | error e => rw [hrec] at hok; cases hok
            | ok tl =>
              rw [hrec] at hok
              injection hok with h
              subst h
              have := ih (c + 1) (q + 1) tl hqlt hrec
              simp only [List.length_cons]
              omega
      · rw [if_neg hsel] at hok
        exact ih (c + 1) q ms hq hok

theorem processVideosGo_error_of_unopenable (framesDir : String)
    (clipModel : Option Captioner) :
    ∀ (videoFiles : List VideoFile) (ids : ℕ),
      (∃ v ∈ videoFiles, v.openable = false) →
      ∃ e, processVideosGo framesDir clipModel videoFiles ids = Except.error e := by
  intro videoFiles
  induction videoFiles with
  | nil => intro ids h; simp at h
  | cons w rest ih =>
    intro ids h
    obtain ⟨v, hvmem, hvopen⟩ := h
    rw [processVideosGo]
    cases hx : extract_frames_from_video framesDir clipModel ids w none none with
    | error e => exact ⟨e, rfl⟩
    | ok ms =>
      rcases List.mem_cons.mp hvmem with hv | hv
      · subst hv
        rw [extract_unopenable hvopen] at hx
        cases hx
      · obtain ⟨e, he⟩ := ih (ids + ms.length) ⟨v, hv, hvopen⟩
        refine ⟨e, ?_⟩
        show Except.map _ (processVideosGo framesDir clipModel rest (ids + ms.length))
            = Except.error e
        rw [he]
        rfl

theorem pyStrip_eq_empty_iff (s : String) :
    pyStrip s = "" ↔ ∀ c ∈ s.data, isPySpace c = true := by
  unfold pyStrip
  constructor
  · intro h c hc
    have hlist : ((s.data.dropWhile isPySpace).reverse.dropWhile isPySpace).reverse
        = [] := congrArg String.data h
    rw [List.reverse_eq_nil_iff] at hlist
    have hall := List.dropWhile_eq_nil_iff.mp hlist
    by_cases hcdrop : c ∈ s.data.dropWhile isPySpace
    · exact hall c (List.mem_reverse.mpr hcdrop)
    · have hsplit : s.data = s.data.takeWhile isPySpace ++ s.data.dropWhile isPySpace :=
        (List.takeWhile_append_dropWhile _ _).symm
      rw [hsplit] at hc
      rcases List.mem_append.mp hc with h2 | h2
      · exact List.mem_takeWhile_imp h2
      · exact absurd h2 hcdrop
  · intro h
    have h1 : s.data.dropWhile isPySpace = [] :=
      List.dropWhile_eq_nil_iff.mpr (fun c hc => h c hc)
    rw [h1]
    rfl

theorem pyStrip_ne_empty {s : String} {c : Char} (hc : c ∈ s.data)
    (hns : isPySpace c = false) : pyStrip s ≠ "" := by
  intro h
  have := (pyStrip_eq_empty_iff s).mp h c hc
  rw [hns] at this
  cases this

theorem C1_similarity_cex :
    similarityOfDistance 0 = 0 ∧ similarityOfDistance 0 ≠ 1
      ∧ (0 : ℚ) ≤ 1 ∧ similarityOfDistance 0 < similarityOfDistance 1 := by
  norm_num [similarityOfDistance]

theorem C1_similarity_amended (d d1 d2 : ℚ) (hd : 0 ≤ d) (h1 : 1 ≤ d1)
    (h12 : d1 ≤ d2) :
    (d ≤ 1 → similarityOfDistance d = d)
    ∧ similarityOfDistance 0 = 0
    ∧ similarityOfDistance d2 ≤ similarityOfDistance d1
    ∧ (2 ≤ d → similarityOfDistance d = 0)
    ∧ 0 ≤ similarityOfDistance d ∧ similarityOfDistance d ≤ 1 := by
  refine ⟨fun hle => similarityOfDistance_of_le_one hle,
    by norm_num [similarityOfDistance], ?_, ?_, ?_, ?_⟩
  · rcases eq_or_lt_of_le h1 with he | hlt
    · rw [← he, similarityOfDistance_of_le_one le_rfl]
      rcases le_or_lt d2 1 with h2 | h2
      · rw [similarityOfDistance_of_le_one h2]; exact h2
      · rw [similarityOfDistance_of_gt_one h2]
        have hmin : 0 ≤ min d2 2 := le_min (by linarith) (by norm_num)
        linarith
    · rw [similarityOfDistance_of_gt_one hlt,
        similarityOfDistance_of_gt_one (lt_of_lt_of_le hlt h12)]
      have : min d1 2 ≤ min d2 2 := min_le_min h12 le_rfl
      linarith
  · intro h2
    rw [similarityOfDistance_of_gt_one (by linarith), min_eq_right h2]
    norm_num
  · rcases le_or_lt d 1 with h2 | h2
    · rw [similarityOfDistance_of_le_one h2]; exact hd
    · rw [similarityOfDistance_of_gt_one h2]
      have : min d 2 ≤ 2 := min_le_right _ _
      linarith
  · rcases le_or_lt d 1 with h2 | h2
    · rw [similarityOfDistance_of_le_one h2]; exact h2
    · rw [similarityOfDistance_of_gt_one h2]
      have : 0 ≤ min d 2 := le_min (by linarith) (by norm_num)
      linarith

theorem C1_similarity_amended_witness :
    (0 : ℚ) ≤ 1 / 2 ∧ (1 : ℚ) ≤ 1 ∧ (1 : ℚ) ≤ 3
    ∧ (((1 : ℚ) / 2 ≤ 1 → similarityOfDistance (1 / 2) = 1 / 2)
       ∧ similarityOfDistance 0 = 0
       ∧ similarityOfDistance 3 ≤ similarityOfDistance 1
       ∧ ((2 : ℚ) ≤ 1 / 2 → similarityOfDistance (1 / 2) = 0)
       ∧ 0 ≤ similarityOfDistance (1 / 2) ∧ similarityOfDistance (1 / 2) ≤ 1) :=
  ⟨by norm_num, by norm_num, by norm_num,
    C1_similarity_amended (1 / 2) 1 3 (by norm_num) (by norm_num) (by norm_num)⟩

theorem C5_similarity_formula (d : ℚ) (hd : 0 ≤ d) :
    similarityOfDistance d = if d ≤ 1 then d else 1 - min d 2 / 2 := by
  rcases le_or_lt d 1 with h | h
  · rw [similarityOfDistance_of_le_one h, if_pos h]
  · rw [similarityOfDistance_of_gt_one h, if_neg (not_le.mpr h)]

theorem C5_similarity_formula_witness :
    (0 : ℚ) ≤ 3 / 2 ∧ similarityOfDistance (3 / 2)
      = if (3 : ℚ) / 2 ≤ 1 then (3 : ℚ) / 2 else 1 - min ((3 : ℚ) / 2) 2 / 2 :=
  ⟨by norm_num, C5_similarity_formula (3 / 2) (by norm_num)⟩

theorem C7_empty_corpus (videosDir framesDir : String)
    (clipModel : Option Captioner) (idStart : ℕ) :
    process_all_videos videosDir framesDir clipModel [] idStart
      = Except.error ("No video files found in " ++ videosDir)
    ∧ index_frames [] = Except.error "No frames to index!" :=
  ⟨rfl, rfl⟩

theorem C8_document (r : FrameMeta) :
    buildDocument r
      = (match r.description with
         | some d => d ++ " "
         | none => "")
        ++ "Video: " ++ videoNameOf r.video_filename
        ++ " Frame from video content Scene from video"
    ∧ pyStrip (buildDocument r) ≠ "" := by
  have hdoc : buildDocument r
      = (match r.description with
         | some d => d ++ " "
         | none => "")
        ++ "Video: " ++ videoNameOf r.video_filename
        ++ " Frame from video content Scene from video" := by
    cases hd : r.description with
    | none =>
      simp only [buildDocument, hd, List.nil_append, pyJoin]
      apply String.ext
      simp only [string_data_append, List.append_assoc]
      have hlit : " ".data ++ ("Frame from video content".data
          ++ (" ".data ++ "Scene from video".data))
          = " Frame from video content Scene from video".data := by decide
      rw [hlit]
      simp
    | some d =>
      simp only [buildDocument, hd, List.cons_append, List.nil_append, pyJoin]
      apply String.ext
      simp only [string_data_append, List.append_assoc]
      have hlit : " ".data ++ ("Frame from video content".data
          ++ (" ".data ++ "Scene from video".data))
          = " Frame from video content Scene from video".data := by decide
      rw [hlit]
  refine ⟨hdoc, ?_⟩
  have hmem : ('S' : Char) ∈ (buildDocument r).data := by
    rw [hdoc, string_data_append]
    exact List.mem_append_right _ (by decide)
  exact pyStrip_ne_empty hmem (by decide)

theorem resolveFps_pos {q : ℚ} (hq : 0 < q) : resolveFps (some q) = q := by
  show (if q = 0 then settingsFramesPerSecond else q) = q
  rw [if_neg (by intro h; rw [h] at hq; exact lt_irrefl 0 hq)]

theorem C3_sampler (fpsN fpsT : ℚ) (hT : 0 < fpsT) (hle : fpsT ≤ fpsN)
    (name framesDir : String) (clipModel : Option Captioner) (idStart : ℕ)
    (streamLen : ℕ) (mf : Option ℕ) (hmf : ∀ n, mf = some n → 0 < n) :
    frameInterval fpsN fpsT = (⌊fpsN / fpsT⌋).toNat
    ∧ 1 ≤ frameInterval fpsN fpsT
    ∧ (extract_frames_from_video framesDir clipModel idStart
        ⟨name, fpsN, streamLen, true⟩ (some fpsT) mf).map
        (fun ms => ms.map (fun m => m.frame_number))
      = Except.ok ((List.range (min (cdiv streamLen (frameInterval fpsN fpsT))
          (mf.getD (cdiv streamLen (frameInterval fpsN fpsT))))).map
          (fun k => k * frameInterval fpsN fpsT))
    ∧ ∀ j ∈ (List.range (min (cdiv streamLen (frameInterval fpsN fpsT))
          (mf.getD (cdiv streamLen (frameInterval fpsN fpsT))))).map
          (fun k => k * frameInterval fpsN fpsT), j < streamLen := by
  obtain ⟨hIfloor, hIpos⟩ := frameInterval_eq_floor hT hle
  have hi : 1 ≤ frameInterval fpsN fpsT := by rw [hIfloor]; exact hIpos
  have hres : resolveFps (some fpsT) = fpsT := resolveFps_pos hT
  have hfpsne : fpsN ≠ 0 := ne_of_gt (lt_of_lt_of_le hT hle)
  have hcap0 : pyTruthy mf = true → 0 < mf.getD 0 := by
    intro ht
    cases mf with
    | none => cases ht
    | some n => simpa using hmf n rfl
  have hspec := extract_frames_spec framesDir clipModel idStart
    ⟨name, fpsN, streamLen, true⟩ (some fpsT) mf rfl hfpsne
  dsimp only at hspec
  rw [hres] at hspec
  refine ⟨hIfloor, hi, ?_, ?_⟩
  · rw [hspec]
    have hclosed := selectPairs_closed (frameInterval fpsN fpsT) mf hi
      (if pyTruthy mf then
        min streamLen (mf.getD 0 * frameInterval fpsN fpsT)
      else streamLen) 0 0 (by simp) hcap0
    rw [hclosed]
    have hcnt : min (cdiv (if pyTruthy mf then
          min streamLen (mf.getD 0 * frameInterval fpsN fpsT)
        else streamLen) (frameInterval fpsN fpsT))
        (if pyTruthy mf then mf.getD 0 - 0
         else cdiv (if pyTruthy mf then
            min streamLen (mf.getD 0 * frameInterval fpsN fpsT)
          else streamLen) (frameInterval fpsN fpsT))
        = min (cdiv streamLen (frameInterval fpsN fpsT))
            (mf.getD (cdiv streamLen (frameInterval fpsN fpsT))) := by
      cases mf with
      | none => simp [pyTruthy]
      | some n =>
        have hn : 0 < n := hmf n rfl
        have ht : pyTruthy (some n) = true := by simp [pyTruthy]; omega
        rw [ht]
        simp only [if_true, Option.getD_some, Nat.sub_zero]
        rw [cdiv_min _ _ _ hi, cdiv_mul_self hi]
        rw [min_assoc, min_self]
    rw [hcnt]
    simp [Except.map, List.map_map, mkFrameMeta]
  · intro j hj
    obtain ⟨k, hk, rfl⟩ := List.mem_map.mp hj
    have hk2 : k < cdiv streamLen (frameInterval fpsN fpsT) := by
      have := List.mem_range.mp hk
      omega
    exact mul_lt_of_lt_cdiv hi hk2

theorem extract_open_eq (framesDir : String) (clipModel : Option Captioner)
    (idStart : ℕ) (v : VideoFile) (fpsArg : Option ℚ) (mf : Option ℕ)
    (hopen : v.openable = true) :
    extract_frames_from_video framesDir clipModel idStart v fpsArg mf
      = extractLoop
          { framesDir := framesDir, videoFilename := v.filename,
            videoFps := v.fpsNative, clipModel := clipModel,
            interval := frameInterval v.fpsNative (resolveFps fpsArg),
            readable := v.numFrames, maxFrames := mf, idStart := idStart }
          0 0
          (if pyTruthy mf then
            min v.numFrames (mf.getD 0 * frameInterval v.fpsNative (resolveFps fpsArg))
          else v.numFrames) := by
  unfold extract_frames_from_video
  rw [if_neg (by simp [hopen])]

theorem C4_max_frames_cex :
    (extract_frames_from_video "frames" none 0 ⟨"clip.mp4", 1, 3, true⟩
        (some 1) (some 0)).map List.length = Except.ok 3
    ∧ ¬ (3 ≤ 0) := by
  refine ⟨?_, by decide⟩
  rw [extract_frames_spec "frames" none 0 ⟨"clip.mp4", 1, 3, true⟩
    (some 1) (some 0) rfl (by norm_num)]
  dsimp only
  rw [resolveFps_pos (by norm_num : (0 : ℚ) < 1)]
  have hI : frameInterval 1 1 = 1 := by
    obtain ⟨h, _⟩ := frameInterval_eq_floor (by norm_num) (le_refl (1 : ℚ))
    rw [h]
    norm_num
  rw [hI]
  simp only [Except.map, pyTruthy, List.length_map]
  norm_num
  decide

theorem C4_max_frames_amended (framesDir : String) (clipModel : Option Captioner)
    (idStart : ℕ) (v : VideoFile) (fpsArg : Option ℚ) (n : ℕ) (hn : 1 ≤ n) :
    okLengthLE (extract_frames_from_video framesDir clipModel idStart v fpsArg
      (some n)) n := by
  cases ho : v.openable with
  | false =>
    rw [extract_unopenable ho]
    trivial
  | true =>
    rw [extract_open_eq framesDir clipModel idStart v fpsArg (some n) ho]
    cases hloop : extractLoop
        { framesDir := framesDir, videoFilename := v.filename,
          videoFps := v.fpsNative, clipModel := clipModel,
          interval := frameInterval v.fpsNative (resolveFps fpsArg),
          readable := v.numFrames, maxFrames := some n, idStart := idStart }
        0 0
        (if pyTruthy (some n) then
          min v.numFrames ((some n).getD 0 * frameInterval v.fpsNative (resolveFps fpsArg))
        else v.numFrames) with
    | error e => trivial
    | ok ms =>
      have ht : pyTruthy (some n) = true := by
        simp [pyTruthy]
        omega
      have := extractLoop_length_le _ ht _ 0 0 ms (by simpa using hn) hloop
      simpa [okLengthLE] using this

theorem C4_max_frames_amended_witness :
    okLengthLE (extract_frames_from_video "frames" none 0
      ⟨"clip.mp4", 1, 10, true⟩ (some 1) (some 2)) 2 :=
  C4_max_frames_amended "frames" none 0 ⟨"clip.mp4", 1, 10, true⟩ (some 1) 2
    (by norm_num)

theorem C3_sampler_witness :
    0 < (1 : ℚ) ∧ (1 : ℚ) ≤ 30
    ∧ frameInterval 30 1 = (⌊(30 : ℚ) / 1⌋).toNat
    ∧ (extract_frames_from_video "frames" none 0 ⟨"clip.mp4", 30, 90, true⟩
        (some 1) none).map (fun ms => ms.map (fun m => m.frame_number))
      = Except.ok ((List.range (min (cdiv 90 (frameInterval 30 1))
          ((none : Option ℕ).getD (cdiv 90 (frameInterval 30 1))))).map
          (fun k => k * frameInterval 30 1)) :=
  ⟨by norm_num, by norm_num,
    (C3_sampler 30 1 (by norm_num) (by norm_num) "clip.mp4" "frames" none 0 90
      none (fun n h => Option.noConfusion h)).1,
    (C3_sampler 30 1 (by norm_num) (by norm_num) "clip.mp4" "frames" none 0 90
      none (fun n h => Option.noConfusion h)).2.2.1⟩

theorem C10_zero_fps (framesDir : String) (clipModel : Option Captioner)
    (idStart : ℕ) (v : VideoFile) (fpsArg : Option ℚ) (mf : Option ℕ)
    (hopen : v.openable = true) (hz : v.fpsNative = 0) (h1 : 1 ≤ v.numFrames) :
    frameInterval v.fpsNative (resolveFps fpsArg) = 1
    ∧ extract_frames_from_video framesDir clipModel idStart v fpsArg mf
        = Except.error "ZeroDivisionError" := by
  have hI : frameInterval v.fpsNative (resolveFps fpsArg) = 1 := by
    rw [hz]
    unfold frameInterval frameIntervalZ pyInt
    norm_num
  refine ⟨hI, ?_⟩
  rw [extract_open_eq framesDir clipModel idStart v fpsArg mf hopen]
  have hF : 1 ≤ (if pyTruthy mf then
      min v.numFrames (mf.getD 0 * frameInterval v.fpsNative (resolveFps fpsArg))
    else v.numFrames) := by
    rw [hI]
    cases mf with
    | none => simpa [pyTruthy] using h1
    | some n =>
      by_cases hn : n = 0
      · subst hn
        simpa [pyTruthy] using h1
      · have ht : pyTruthy (some n) = true := by simp [pyTruthy, hn]
        rw [ht]
        simp only [if_true, Option.getD_some, Nat.mul_one]
        omega
  obtain ⟨F, hFeq⟩ : ∃ F, (if pyTruthy mf then
      min v.numFrames (mf.getD 0 * frameInterval v.fpsNative (resolveFps fpsArg))
    else v.numFrames) = F + 1 :=
    ⟨(if pyTruthy mf then
        min v.numFrames (mf.getD 0 * frameInterval v.fpsNative (resolveFps fpsArg))
      else v.numFrames) - 1, by omega⟩
  rw [hFeq, extractLoop]
  rw [if_neg (by dsimp only; omega)]
  rw [if_pos (by dsimp only; exact Nat.zero_mod _)]
  rw [if_pos (by dsimp only; exact hz)]

theorem C10_zero_fps_witness :
    (VideoFile.mk "zero.mp4" 0 1 true).openable = true
    ∧ (VideoFile.mk "zero.mp4" 0 1 true).fpsNative = 0
    ∧ 1 ≤ (VideoFile.mk "zero.mp4" 0 1 true).numFrames
    ∧ (frameInterval (VideoFile.mk "zero.mp4" 0 1 true).fpsNative
        (resolveFps none) = 1
      ∧ extract_frames_from_video "frames" none 0
          (VideoFile.mk "zero.mp4" 0 1 true) none none
        = Except.error "ZeroDivisionError") :=
  ⟨rfl, rfl, by decide,
    C10_zero_fps "frames" none 0 (VideoFile.mk "zero.mp4" 0 1 true) none none
      rfl rfl (by decide)⟩

theorem C9_captioning (framesDir : String) (f : Captioner) (idStart : ℕ)
    (v : VideoFile) (fpsArg : Option ℚ) (mf : Option ℕ)
    (hopen : v.openable = true) (hfps : v.fpsNative ≠ 0) :
    (extract_frames_from_video framesDir (some f) idStart v fpsArg mf).map
        (fun ms => ms.map eraseDescription)
      = extract_frames_from_video framesDir none idStart v fpsArg mf
    ∧ ∀ ms, extract_frames_from_video framesDir (some f) idStart v fpsArg mf
        = Except.ok ms →
      ∀ m ∈ ms, ∀ e, f (framesDir ++ "/" ++ m.filename) = Except.error e →
        m.description = none := by
  have hspecf := extract_frames_spec framesDir (some f) idStart v fpsArg mf
    hopen hfps
  have hspecn := extract_frames_spec framesDir none idStart v fpsArg mf
    hopen hfps
  constructor
  · rw [hspecf, hspecn]
    simp [Except.map, List.map_map, eraseDescription, mkFrameMeta,
      descriptionField]
  · intro ms hok m hm e herr
    rw [hspecf] at hok
    injection hok with hok
    subst hok
    obtain ⟨p, _, rfl⟩ := List.mem_map.mp hm
    show descriptionField (some f)
      (framesDir ++ "/" ++ frameFilename v.filename p.2) = none
    have hfile : (mkFrameMeta framesDir v.filename v.fpsNative (some f)
        (idStart + p.2) p.1 p.2).filename = frameFilename v.filename p.2 := rfl
    rw [hfile] at herr
    simp only [descriptionField, generate_frame_description, herr]

theorem C9_captioning_witness :
    (VideoFile.mk "clip.mp4" 1 1 true).openable = true
    ∧ (VideoFile.mk "clip.mp4" 1 1 true).fpsNative ≠ 0
    ∧ (extract_frames_from_video "frames"
        (some (fun _ => Except.error "boom")) 0
        (VideoFile.mk "clip.mp4" 1 1 true) none none).map
        (fun ms => ms.map eraseDescription)
      = extract_frames_from_video "frames" none 0
          (VideoFile.mk "clip.mp4" 1 1 true) none none :=
  ⟨rfl, by norm_num,
    (C9_captioning "frames" (fun _ => Except.error "boom") 0
      (VideoFile.mk "clip.mp4" 1 1 true) none none rfl (by norm_num)).1⟩

theorem C2_batch_cex :
    process_all_videos "videos" "frames" none
      [VideoFile.mk "bad.mp4" 1 1 false, VideoFile.mk "good.mp4" 1 1 true] 0
      = Except.error "Could not open video file: bad.mp4"
    ∧ (VideoFile.mk "good.mp4" 1 1 true).openable = true := by
  refine ⟨?_, rfl⟩
  unfold process_all_videos
  rw [if_neg (by decide)]
  rw [processVideosGo]
  rw [extract_unopenable (rfl :
    (VideoFile.mk "bad.mp4" 1 1 false).openable = false)]
  rfl

theorem C2_batch_aborts (videosDir framesDir : String)
    (clipModel : Option Captioner) (videoFiles : List VideoFile) (idStart : ℕ)
    (v : VideoFile) (hv : v ∈ videoFiles) (hopen : v.openable = false) :
    exceptErrored (process_all_videos videosDir framesDir clipModel
      videoFiles idStart) = true := by
  obtain ⟨e, he⟩ := processVideosGo_error_of_unopenable framesDir clipModel
    videoFiles idStart ⟨v, hv, hopen⟩
  unfold process_all_videos
  rw [if_neg (by
    intro hemp
    rw [List.isEmpty_iff] at hemp
    subst hemp
    cases hv)]
  rw [he]
  rfl

theorem C2_batch_aborts_witness :
    (VideoFile.mk "bad.mp4" 1 1 false)
      ∈ [VideoFile.mk "bad.mp4" 1 1 false, VideoFile.mk "good.mp4" 1 1 true]
    ∧ (VideoFile.mk "bad.mp4" 1 1 false).openable = false
    ∧ exceptErrored (process_all_videos "videos" "frames" none
        [VideoFile.mk "bad.mp4" 1 1 false, VideoFile.mk "good.mp4" 1 1 true] 0)
      = true :=
  ⟨List.mem_cons_self _ _, rfl,
    C2_batch_aborts "videos" "frames" none
      [VideoFile.mk "bad.mp4" 1 1 false, VideoFile.mk "good.mp4" 1 1 true] 0
      (VideoFile.mk "bad.mp4" 1 1 false) (List.mem_cons_self _ _) rfl⟩

theorem C6_filename_cex :
    (extract_frames_from_video "frames" none 0 ⟨"clip.mp4", 1, 1, true⟩
        none none).map (fun ms => ms.map (fun m => m.filename))
      = Except.ok ["clip_frame_00000.jpg"]
    ∧ (extract_frames_from_video "frames" none 1 ⟨"clip.avi", 1, 1, true⟩
        none none).map (fun ms => ms.map (fun m => m.filename))
      = Except.ok ["clip_frame_00000.jpg"]
    ∧ "clip.mp4" ≠ "clip.avi" := by
  have hI : frameInterval 1 (resolveFps none) = 1 := by
    obtain ⟨h, _⟩ := frameInterval_eq_floor (by norm_num)
      (le_refl (1 : ℚ))
    show frameInterval 1 1 = 1
    rw [h]
    norm_num
  refine ⟨?_, ?_, by decide⟩
  · rw [extract_frames_spec "frames" none 0 ⟨"clip.mp4", 1, 1, true⟩
      none none rfl (by norm_num)]
    dsimp only
    rw [hI]
    simp only [Except.map, pyTruthy, List.map_map]
    norm_num
    rw [show selectPairs 1 none 0 0 1 = [(0, 0)] from by decide]
    decide
  · rw [extract_frames_spec "frames" none 1 ⟨"clip.avi", 1, 1, true⟩
      none none rfl (by norm_num)]
    dsimp only
    rw [hI]
    simp only [Except.map, pyTruthy, List.map_map]
    norm_num
    rw [show selectPairs 1 none 0 0 1 = [(0, 0)] from by decide]
    decide

theorem C6_filename_amended (v1 v2 : String) (q1 q2 : ℕ)
    (hstem : splitextStem v1 = splitextStem v2 → v1 = v2)
    (hne : (v1, q1) ≠ (v2, q2)) :
    frameFilename v1 q1 ≠ frameFilename v2 q2 :=
  frameFilename_injective v1 v2 q1 q2 hstem hne

theorem C6_filename_amended_witness :
    (splitextStem "a.mp4" = splitextStem "b.mp4" → "a.mp4" = "b.mp4")
    ∧ ("a.mp4", 0) ≠ ("b.mp4", 0)
    ∧ frameFilename "a.mp4" 0 ≠ frameFilename "b.mp4" 0 :=
  ⟨by decide, by decide,
    C6_filename_amended "a.mp4" "b.mp4" 0 0 (by decide) (by decide)⟩
